import Mathlib

/-! Notes service (`lab5/index.js`, `lab6/index.js`).

A shallow embedding of the two Express applications and of the part of Node's
`fs.promises` and `path` modules their route handlers call, followed by the
properties of the handlers.

* The disk is a tree: the entries of the root directory, each a regular file or a
  directory.  `options.cache` is given by the components of its absolute path.
* Every handler is a function from the disk (and the request) to the response it
  sends (and the disk it leaves behind).
* Request fields are either absent or strings, which is what the url-encoded and
  multipart parsers deliver for plain fields.
* Paths follow the POSIX rules (separator `/`).  The model has no symbolic links, no
  directory permissions and no resource limits.
-/

namespace Notes

/-! ## The disk -/

/-- What a directory entry points to: a regular file with its text and its read and
write permission, or a subdirectory with its own entries in enumeration order. -/
inductive Node where
  | file (text : String) (readable writable : Bool)
  | dir (entries : List (String × Node))

/-- The entries of a directory, in the order `readdir` enumerates them.  A name is
looked up from the front, so the first binding of a name is the entry. -/
abbrev Dir := List (String × Node)

mutual
/-- Decides equality of nodes. -/
def Node.decEq : (a b : Node) → Decidable (a = b)
  | .file t r w, .file t2 r2 w2 =>
    if h : t = t2 ∧ r = r2 ∧ w = w2 then isTrue (by rw [h.1, h.2.1, h.2.2])
    else isFalse (fun e => h (by injection e with h1 h2 h3; exact ⟨h1, h2, h3⟩))
  | .dir es, .dir es2 =>
    match Node.decEqEntries es es2 with
    | isTrue h => isTrue (by rw [h])
    | isFalse h => isFalse (fun e => h (by injection e))
  | .file _ _ _, .dir _ => isFalse (fun e => by cases e)
  | .dir _, .file _ _ _ => isFalse (fun e => by cases e)
/-- Decides equality of entry lists. -/
def Node.decEqEntries : (a b : List (String × Node)) → Decidable (a = b)
  | [], [] => isTrue rfl
  | (k, v) :: es, (k2, v2) :: es2 =>
    if hk : k = k2 then
      match Node.decEq v v2, Node.decEqEntries es es2 with
      | isTrue hv, isTrue hes => isTrue (by rw [hk, hv, hes])
      | isFalse hv, _ => isFalse (fun e => hv (by injection e with h1 h2; injection h1))
      | _, isFalse hes => isFalse (fun e => hes (by injection e))
    else isFalse (fun e => hk (by injection e with h1 h2; injection h1))
  | [], _ :: _ => isFalse (fun e => by cases e)
  | _ :: _, [] => isFalse (fun e => by cases e)
end

instance : DecidableEq Node := Node.decEq

/-- A path as `fs` receives it: the components below the root and whether the string
ends in a separator. -/
structure FsPath where
  segs : List String
  trailing : Bool
deriving DecidableEq, Repr

/-- Whether a string holds a NUL character; `fs` rejects every such path. -/
def hasNul (s : String) : Bool :=
  decide (Char.ofNat 0 ∈ s.data)

/-- Replaces the node of the first entry called `s`. -/
def setEntry : Dir → String → Node → Dir
  | [], _, _ => []
  | (k, v) :: es, s, c => if k == s then (k, c) :: es else (k, v) :: setEntry es s c

/-- Follows the components of a path down from the directory `es`.  Walking through a
regular file fails. -/
def walk (es : Dir) : List String → Option Node
  | [] => some (.dir es)
  | s :: rest =>
    match es.lookup s with
    | none => none
    | some (.dir sub) => walk sub rest
    | some (.file t r w) => if rest = [] then some (.file t r w) else none

/-- Opens the file at the given components for writing (create, truncate) and stores
`data`.  A new file is appended to its directory with both permissions set. -/
def write (es : Dir) : List String → String → Option Dir
  | [], _ => none
  | [s], data =>
    match es.lookup s with
    | none => some (es ++ [(s, .file data true true)])
    | some (.file _ r w) => if w then some (setEntry es s (.file data r w)) else none
    | some (.dir _) => none
  | s :: r :: rest, data =>
    match es.lookup s with
    | some (.dir sub) => (write sub (r :: rest) data).map (fun sub2 => setEntry es s (.dir sub2))
    | _ => none

/-- Removes the regular file at the given components.  Every binding of the name is
dropped from its directory. -/
def remove (es : Dir) : List String → Option Dir
  | [] => none
  | [s] =>
    match es.lookup s with
    | some (.file _ _ _) => some (es.filter (fun e => e.1 != s))
    | _ => none
  | s :: r :: rest =>
    match es.lookup s with
    | some (.dir sub) => (remove sub (r :: rest)).map (fun sub2 => setEntry es s (.dir sub2))
    | _ => none

/-! ## `path.join` -/

/-- Cuts a string at every separator. -/
def path.splitSep : List Char → List (List Char)
  | [] => [[]]
  | c :: cs =>
    if c = '/' then [] :: path.splitSep cs
    else
      match path.splitSep cs with
      | [] => [[c]]
      | seg :: segs => (c :: seg) :: segs

/-- The component loop of Node's `normalizeString` on an absolute path: empty
components and `.` are skipped, `..` drops the last component kept so far (and is
ignored at the root). -/
def path.normalizeString (stack : List String) : List String → List String
  | [] => stack
  | seg :: rest =>
    if seg = "" ∨ seg = "." then path.normalizeString stack rest
    else if seg = ".." then path.normalizeString stack.dropLast rest
    else path.normalizeString (stack ++ [seg]) rest

/-- The result of `path.join(options.cache, name)`, where `cache` lists the components
of the absolute normal form of `options.cache`: the components of `name` are
normalised on top of `cache`, and a final separator of `name` is kept. -/
def path.join (cache : List String) (name : String) : FsPath :=
  ⟨path.normalizeString cache ((path.splitSep name.data).map String.mk),
    decide (name.data.getLast? = some '/')⟩

/-! ## `fs.promises` -/

/-- Path resolution: the node a path names, if any.  A path with a NUL fails, and a
path ending in a separator names directories only. -/
def fs.resolve (disk : Dir) (p : FsPath) : Option Node :=
  if p.segs.any hasNul then none
  else
    match walk disk p.segs with
    | none => none
    | some (.dir es) => some (.dir es)
    | some (.file t r w) => if p.trailing then none else some (.file t r w)

/-- Result of `fs.access(p)`: `true` when it resolves, `false` when it rejects. -/
def fs.access (disk : Dir) (p : FsPath) : Bool :=
  (fs.resolve disk p).isSome

/-- Result of `fs.readFile(p, 'utf-8')`: the text, or `none` when it rejects. -/
def fs.readFile (disk : Dir) (p : FsPath) : Option String :=
  match fs.resolve disk p with
  | some (.file t true _) => some t
  | _ => none

/-- Result of `fs.writeFile(p, data)`: the new disk, or `none` when it rejects. -/
def fs.writeFile (disk : Dir) (p : FsPath) (data : String) : Option Dir :=
  if p.segs.any hasNul ∨ p.trailing = true then none else write disk p.segs data

/-- Result of `fs.unlink(p)`: the new disk, or `none` when it rejects. -/
def fs.unlink (disk : Dir) (p : FsPath) : Option Dir :=
  if p.segs.any hasNul ∨ p.trailing = true then none else remove disk p.segs

/-- Result of `fs.readdir(p)`: the entry names in order, or `none` when it rejects. -/
def fs.readdir (disk : Dir) (p : FsPath) : Option (List String) :=
  match fs.resolve disk p with
  | some (.dir es) => some (es.map Prod.fst)
  | _ => none

/-- Outcome of `Promise.all`: every value in order, or rejection if one rejects. -/
def Promise.all {α : Type} : List (Option α) → Option (List α)
  | [] => some []
  | none :: _ => none
  | some a :: xs => (Promise.all xs).map (fun as => a :: as)

/-! ## Requests and responses -/

/-- The fields of `req.body` the handlers read; `none` is an absent field. -/
structure Body where
  note_name : Option String
  note : Option String
  text : Option String
deriving DecidableEq, Repr

/-- JavaScript truthiness of a field: absent and the empty string are falsy. -/
def truthy : Option String → Bool
  | none => false
  | some s => decide (s ≠ "")

/-- One element of the array `GET /notes` answers with. -/
structure Note where
  name : String
  text : String
deriving DecidableEq, Repr

/-- What was passed to `res.send` or `res.json`. -/
inductive ResBody where
  | text (s : String)
  | json (notes : List Note)
deriving DecidableEq, Repr

/-- Status code and body of the response a handler sends. -/
structure Response where
  status : Nat
  body : ResBody
deriving DecidableEq, Repr

/-- An exception that leaves a handler. -/
inductive JsError where
  | referenceError (msg : String)
  | typeError (msg : String)
  | fsError (msg : String)
deriving DecidableEq, Repr

/-- How a handler without a `try` ends: it sends a response or it throws. -/
inductive Outcome where
  | sent (res : Response)
  | threw (err : JsError)
deriving DecidableEq, Repr

/-! ## Handlers of `lab5/index.js` -/

/-- Handler of `GET /notes/:name` (lab5): the file is read and sent with the default
status 200; any rejection of the read is answered with 404. -/
def lab5.get_notes_name (cache : List String) (disk : Dir) (name : String) : Response :=
  let filePath := path.join cache name
  match fs.readFile disk filePath with
  | some content => ⟨200, .text content⟩
  | none => ⟨404, .text "Not found"⟩

/-- Handler of `PUT /notes/:name` (lab5).  The guard is `!req.body || !req.body.text`;
a rejected write is answered with 500. -/
def lab5.put_notes_name (cache : List String) (disk : Dir) (name : String)
    (body : Option Body) : Response × Dir :=
  let filePath := path.join cache name
  match body with
  | none => (⟨400, .text "Missing text in request body"⟩, disk)
  | some b =>
    if !truthy b.text then (⟨400, .text "Missing text in request body"⟩, disk)
    else
      match fs.writeFile disk filePath (b.text.getD "") with
      | some disk2 => (⟨200, .text "Updated successfully"⟩, disk2)
      | none => (⟨500, .text "Error updating note"⟩, disk)

/-- Handler of `DELETE /notes/:name` (lab5). -/
def lab5.delete_notes_name (cache : List String) (disk : Dir) (name : String) :
    Response × Dir :=
  let filePath := path.join cache name
  match fs.unlink disk filePath with
  | some disk2 => (⟨200, .text "Deleted"⟩, disk2)
  | none => (⟨404, .text "Not found"⟩, disk)

/-- Handler of `GET /notes` (lab5): `readdir`, then all files read under `Promise.all`;
any rejection is answered with 500. -/
def lab5.get_notes (cache : List String) (disk : Dir) : Response :=
  match fs.readdir disk ⟨cache, false⟩ with
  | none => ⟨500, .text "Server error"⟩
  | some files =>
    match Promise.all (files.map (fun name =>
        (fs.readFile disk (path.join cache name)).map (fun text => Note.mk name text))) with
    | some notes => ⟨200, .json notes⟩
    | none => ⟨500, .text "Server error"⟩

/-- Handler of `POST /write` (lab5).  Destructuring an undefined body throws into the
outer `catch`; the guard is `!note_name || !note`; the inner `try` probes the path
with `fs.access` and its `catch` writes the file. -/
def lab5.post_write (cache : List String) (disk : Dir) (body : Option Body) :
    Response × Dir :=
  match body with
  | none => (⟨500, .text "Server error"⟩, disk)
  | some b =>
    if !truthy b.note_name || !truthy b.note then
      (⟨400, .text "Missing required fields"⟩, disk)
    else
      let filePath := path.join cache (b.note_name.getD "")
      if fs.access disk filePath then (⟨400, .text "Note already exists"⟩, disk)
      else
        match fs.writeFile disk filePath (b.note.getD "") with
        | some disk2 => (⟨201, .text "Created"⟩, disk2)
        | none => (⟨500, .text "Server error"⟩, disk)

/-! ## Handlers of `lab6/index.js` -/

/-- The names bound at the top level of `lab6/index.js`. -/
def lab6.moduleScope : List String :=
  ["express", "Command", "fs", "path", "multer", "swaggerJsdoc", "swaggerUi", "upload",
    "program", "options", "app", "swaggerOptions", "swaggerSpec"]

/-- The members of `require('fs').promises`, which is what `fs` is bound to. -/
def fs.promisesApi : List String :=
  ["access", "appendFile", "chmod", "chown", "constants", "copyFile", "cp", "lchmod",
    "lchown", "link", "lstat", "lutimes", "mkdir", "mkdtemp", "open", "opendir",
    "readFile", "readdir", "readlink", "realpath", "rename", "rm", "rmdir", "stat",
    "statfs", "symlink", "truncate", "unlink", "utimes", "watch", "writeFile"]

/-- Handler of `GET /notes/:name` (lab6).  It is synchronous and has no `try`.  Its
first statement evaluates the identifier `cachePath`, its second calls
`fs.existsSync`, its third `fs.readFileSync`. -/
def lab6.get_notes_name (cache : List String) (disk : Dir) (name : String) : Outcome :=
  if "cachePath" ∉ lab6.moduleScope then
    .threw (.referenceError "cachePath is not defined")
  else
    let notePath := path.join cache name
    if "existsSync" ∉ fs.promisesApi then
      .threw (.typeError "fs.existsSync is not a function")
    else if !fs.access disk notePath then .sent ⟨404, .text "Note not found"⟩
    else if "readFileSync" ∉ fs.promisesApi then
      .threw (.typeError "fs.readFileSync is not a function")
    else
      match fs.readFile disk notePath with
      | some note => .sent ⟨200, .text note⟩
      | none => .threw (.fsError "readFileSync failed")

/-- Handler of `DELETE /notes/:name` (lab6). -/
def lab6.delete_notes_name (cache : List String) (disk : Dir) (name : String) :
    Response × Dir :=
  let filePath := path.join cache name
  match fs.unlink disk filePath with
  | some disk2 => (⟨200, .text "Deleted"⟩, disk2)
  | none => (⟨404, .text "Not found"⟩, disk)

/-- Handler of `GET /notes` (lab6). -/
def lab6.get_notes (cache : List String) (disk : Dir) : Response :=
  match fs.readdir disk ⟨cache, false⟩ with
  | none => ⟨500, .text "Server error"⟩
  | some files =>
    match Promise.all (files.map (fun name =>
        (fs.readFile disk (path.join cache name)).map (fun text => Note.mk name text))) with
    | some notes => ⟨200, .json notes⟩
    | none => ⟨500, .text "Server error"⟩

/-- Handler of `POST /write` (lab6), after `upload.none()` has filled `req.body`. -/
def lab6.post_write (cache : List String) (disk : Dir) (body : Option Body) :
    Response × Dir :=
  match body with
  | none => (⟨500, .text "Server error"⟩, disk)
  | some b =>
    if !truthy b.note_name || !truthy b.note then
      (⟨400, .text "Missing required fields"⟩, disk)
    else
      let filePath := path.join cache (b.note_name.getD "")
      if fs.access disk filePath then (⟨400, .text "Note already exists"⟩, disk)
      else
        match fs.writeFile disk filePath (b.note.getD "") with
        | some disk2 => (⟨201, .text "Created"⟩, disk2)
        | none => (⟨500, .text "Server error"⟩, disk)

/-! ## `POST /write` as two file-system steps -/

/-- Where a `POST /write` call stands: suspended at `await fs.access`, suspended at
`await fs.writeFile`, or finished with its response. -/
inductive Task where
  | probe (filePath : FsPath) (note : String)
  | write (filePath : FsPath) (note : String)
  | done (res : Response)
deriving DecidableEq, Repr

/-- The synchronous part of the handler up to its first `await`. -/
def Task.start (cache : List String) (body : Option Body) : Task :=
  match body with
  | none => .done ⟨500, .text "Server error"⟩
  | some b =>
    if !truthy b.note_name || !truthy b.note then
      .done ⟨400, .text "Missing required fields"⟩
    else .probe (path.join cache (b.note_name.getD "")) (b.note.getD "")

/-- One file-system step of a call, run on the current disk: the probe either ends
the call with 400 or leads to the write; the write ends it with 201 or 500. -/
def Task.step (disk : Dir) : Task → Task × Dir
  | .probe filePath note =>
    if fs.access disk filePath then (.done ⟨400, .text "Note already exists"⟩, disk)
    else (.write filePath note, disk)
  | .write filePath note =>
    match fs.writeFile disk filePath note with
    | some disk2 => (.done ⟨201, .text "Created"⟩, disk2)
    | none => (.done ⟨500, .text "Server error"⟩, disk)
  | .done res => (.done res, disk)

/-- How many file-system steps a call can still take. -/
def Task.stepsLeft : Task → Nat
  | .probe _ _ => 2
  | .write _ _ => 1
  | .done _ => 0

/-- Two calls in flight over one disk. -/
structure Sys where
  disk : Dir
  first : Task
  second : Task

/-- The call chosen by `who` (`false` the first, `true` the second) takes one step. -/
def Sys.step (s : Sys) (who : Bool) : Sys :=
  if who then ⟨(s.second.step s.disk).2, s.first, (s.second.step s.disk).1⟩
  else ⟨(s.first.step s.disk).2, (s.first.step s.disk).1, s.second⟩

/-- Runs a schedule, the list of who steps next. -/
def Sys.run (s : Sys) (sched : List Bool) : Sys :=
  sched.foldl Sys.step s

/-! ## Names -/

/-- A single path component: a non-empty string without separator and without NUL. -/
def IsPathComponent (name : String) : Prop :=
  name ≠ "" ∧ '/' ∉ name.data ∧ Char.ofNat 0 ∉ name.data

instance (name : String) : Decidable (IsPathComponent name) := by
  unfold IsPathComponent; infer_instance

/-- A name a directory entry can carry: a path component other than `.` and `..`. -/
def IsFileName (name : String) : Prop :=
  IsPathComponent name ∧ name ≠ "." ∧ name ≠ ".."

instance (name : String) : Decidable (IsFileName name) := by
  unfold IsFileName; infer_instance

/-- The entries of a real directory: distinct names, each a file name. -/
def ValidEntries (es : Dir) : Prop :=
  (es.map Prod.fst).Nodup ∧ ∀ e ∈ es, IsFileName e.1

instance (es : Dir) : Decidable (ValidEntries es) := by
  unfold ValidEntries; infer_instance

/-- Whether a node is a regular file that may be read. -/
def Node.isReadableFile : Node → Bool
  | .file _ r _ => r
  | .dir _ => false

/-- The text of a node: the content of a regular file (a directory has none). -/
def Node.content : Node → String
  | .file t _ _ => t
  | .dir _ => ""

/-- Two `POST /write` calls for the same name, with texts `t1` and `t2`, both past
their synchronous part and about to take their first file-system step. -/
def raceStart (cache : List String) (disk : Dir) (name t1 t2 : String) : Sys :=
  ⟨disk, Task.start cache (some ⟨some name, some t1, none⟩),
    Task.start cache (some ⟨some name, some t2, none⟩)⟩

/-- The path `p` holds an ordinary file whose text is `t1` or `t2`. -/
def HoldsOneOf (d : Dir) (p : FsPath) (t1 t2 : String) : Prop :=
  ∃ t, (t = t1 ∨ t = t2) ∧ fs.resolve d p = some (.file t true true)

/-- What is known of a call creating `p` with text `t` while it runs: it waits at its
probe, it waits at its write, or it has finished and the file exists. -/
def TaskInv (d : Dir) (p : FsPath) (t1 t2 t : String) (task : Task) : Prop :=
  task = .probe p t ∨ task = .write p t ∨ ∃ r, task = .done r ∧ HoldsOneOf d p t1 t2

/-- What is known of two racing calls: the disk is still the initial one or the file
exists with one of the two texts, and each call satisfies `TaskInv`. -/
def SysInv (disk0 : Dir) (p : FsPath) (t1 t2 : String) (s : Sys) : Prop :=
  (s.disk = disk0 ∨ HoldsOneOf s.disk p t1 t2) ∧
    TaskInv s.disk p t1 t2 t1 s.first ∧ TaskInv s.disk p t1 t2 t2 s.second

/-! ## Sample data -/

/-- A small disk: the store directory `/srv/cache` with one note and one subdirectory. -/
def demoDisk : Dir :=
  [("srv", .dir [("cache", .dir [("a.txt", .file "hello" true true), ("sub", .dir [])])])]

/-- The store directory of `demoDisk`. -/
def demoCache : List String := ["srv", "cache"]

/-- A store directory `/srv/cache` whose only entry may be written but not read. -/
def writeOnlyDisk : Dir :=
  [("srv", .dir [("cache", .dir [("w.txt", .file "old" false true)])])]

/-- A store directory `/srv/cache` holding two notes and nothing else. -/
def notesDisk : Dir :=
  [("srv", .dir [("cache", .dir [("b.txt", .file "second" true true),
    ("a.txt", .file "first" true false)])])]

end Notes

namespace Notes

/-! ## Facts about `path.join` -/

theorem path.splitSep_of_not_mem (cs : List Char) (h : '/' ∉ cs) :
    path.splitSep cs = [cs] := by
  induction cs with
  | nil => rfl
  | cons c cs ih =>
    have hc : c ≠ '/' := fun e => h (by simp [e])
    have hcs : '/' ∉ cs := fun e => h (List.mem_cons_of_mem _ e)
    simp [path.splitSep, hc, ih hcs]

theorem path.join_of_fileName (cache : List String) (name : String)
    (h : IsFileName name) : path.join cache name = ⟨cache ++ [name], false⟩ := by
  obtain ⟨⟨hne, hsep, _⟩, hdot, hdotdot⟩ := h
  have hlast : name.data.getLast? ≠ some '/' :=
    fun e => hsep (List.mem_of_getLast?_eq_some e)
  have hmk : String.mk name.data = name := rfl
  simp [path.join, path.splitSep_of_not_mem _ hsep, path.normalizeString, hmk, hne, hdot,
    hdotdot, hlast]

theorem path.join_dot (cache : List String) : path.join cache "." = ⟨cache, false⟩ := by
  simp [path.join, path.splitSep, path.normalizeString]

theorem path.join_dotdot (cache : List String) :
    path.join cache ".." = ⟨cache.dropLast, false⟩ := by
  simp [path.join, path.splitSep, path.normalizeString]

theorem hasNul_of_component (name : String) (h : IsPathComponent name) :
    hasNul name = false := by
  simp [hasNul, h.2.2]

theorem component_cases (name : String) (h : IsPathComponent name) :
    name = "." ∨ name = ".." ∨ IsFileName name := by
  by_cases h1 : name = "."
  · exact Or.inl h1
  · by_cases h2 : name = ".."
    · exact Or.inr (Or.inl h2)
    · exact Or.inr (Or.inr ⟨h, h1, h2⟩)

/-! ## Facts about directories -/

theorem lookup_setEntry_self (es : Dir) (s : String) (v c : Node)
    (h : es.lookup s = some v) : (setEntry es s c).lookup s = some c := by
  induction es with
  | nil => simp at h
  | cons e es ih =>
    obtain ⟨k, v0⟩ := e
    by_cases hk : k = s
    · simp [setEntry, hk]
    · have hk2 : (s == k) = false := by simpa using fun e : s = k => hk e.symm
      simp only [List.lookup_cons, hk2] at h
      simp [setEntry, hk, List.lookup_cons, hk2, ih h]

theorem lookup_append_new (es : Dir) (s : String) (c : Node) (h : es.lookup s = none) :
    (es ++ [(s, c)]).lookup s = some c := by
  simp [List.lookup_append, h]

theorem lookup_filter_ne (es : Dir) (s : String) :
    (es.filter (fun e => e.1 != s)).lookup s = none := by
  induction es with
  | nil => rfl
  | cons e es ih =>
    obtain ⟨k, v0⟩ := e
    by_cases hk : k = s
    · simp [List.filter_cons, hk, ih]
    · have hk2 : (s == k) = false := by simpa using fun e : s = k => hk e.symm
      simp [List.filter_cons, hk, List.lookup_cons, hk2, ih]

theorem lookup_of_mem_nodup (es : Dir) (e : String × Node)
    (hnd : (es.map Prod.fst).Nodup) (hmem : e ∈ es) : es.lookup e.1 = some e.2 := by
  induction es with
  | nil => simp at hmem
  | cons x es ih =>
    obtain ⟨k, v0⟩ := x
    simp only [List.map_cons, List.nodup_cons] at hnd
    rcases List.mem_cons.mp hmem with h | h
    · subst h
      simp
    · have hk : (e.1 == k) = false := by
        simp only [beq_eq_false_iff_ne, ne_eq]
        intro hek
        apply hnd.1
        rw [← hek]
        exact List.mem_map_of_mem Prod.fst h
      simp [List.lookup_cons, hk, ih hnd.2 h]

/-! ## Facts about walking, writing and removing -/

theorem walk_singleton (es : Dir) (s : String) : walk es [s] = es.lookup s := by
  cases h : es.lookup s with
  | none => simp [walk, h]
  | some n => cases n <;> simp [walk, h]

theorem walk_append_dir (p q : List String) :
    ∀ (es sub : Dir), walk es p = some (.dir sub) → walk es (p ++ q) = walk sub q := by
  induction p with
  | nil =>
    intro es sub h
    simp [walk] at h
    simp [h]
  | cons s rest ih =>
    intro es sub h
    cases hl : es.lookup s with
    | none => simp [walk, hl] at h
    | some n =>
      cases n with
      | dir sub1 =>
        simp only [walk, hl] at h
        simp [walk, hl, ih sub1 sub h]
      | file t r w =>
        simp only [walk, hl] at h
        split at h <;> simp at h

theorem walk_dropLast_dir (p : List String) :
    ∀ (es : Dir) (n : Node), walk es p = some n → ∃ sub, walk es p.dropLast = some (.dir sub) := by
  induction p with
  | nil =>
    intro es n _
    exact ⟨es, rfl⟩
  | cons s rest ih =>
    intro es n h
    cases rest with
    | nil => exact ⟨es, rfl⟩
    | cons r rest2 =>
      cases hl : es.lookup s with
      | none => simp [walk, hl] at h
      | some m =>
        cases m with
        | dir sub1 =>
          simp only [walk, hl] at h
          obtain ⟨sub, hsub⟩ := ih sub1 n h
          exact ⟨sub, by simpa [walk, hl] using hsub⟩
        | file t r0 w => simp [walk, hl] at h

theorem write_cons_of_ne_nil (es : Dir) (s : String) (q : List String) (data : String)
    (hq : q ≠ []) :
    write es (s :: q) data =
      match es.lookup s with
      | some (.dir sub) => (write sub q data).map (fun sub2 => setEntry es s (.dir sub2))
      | _ => none := by
  cases q with
  | nil => exact absurd rfl hq
  | cons r rest => rfl

theorem remove_cons_of_ne_nil (es : Dir) (s : String) (q : List String) (hq : q ≠ []) :
    remove es (s :: q) =
      match es.lookup s with
      | some (.dir sub) => (remove sub q).map (fun sub2 => setEntry es s (.dir sub2))
      | _ => none := by
  cases q with
  | nil => exact absurd rfl hq
  | cons r rest => rfl

theorem walk_cons_of_ne_nil (es : Dir) (s : String) (q : List String) (hq : q ≠ []) :
    walk es (s :: q) =
      match es.lookup s with
      | some (.dir sub) => walk sub q
      | _ => none := by
  cases hl : es.lookup s with
  | none => simp [walk, hl]
  | some n => cases n <;> simp [walk, hl, hq]

/-- Writing a name that its directory does not hold yet succeeds and creates the file. -/
theorem write_snoc_new (cache : List String) (name data : String) :
    ∀ (es sub : Dir), walk es cache = some (.dir sub) → sub.lookup name = none →
      ∃ es2, write es (cache ++ [name]) data = some es2 ∧
        walk es2 (cache ++ [name]) = some (.file data true true) := by
  induction cache with
  | nil =>
    intro es sub h hnew
    simp [walk] at h
    subst h
    refine ⟨es ++ [(name, .file data true true)], ?_, ?_⟩
    · simp [write, hnew]
    · simp only [List.nil_append, walk_singleton]
      exact lookup_append_new es name _ hnew
  | cons s rest ih =>
    intro es sub h hnew
    have hq : rest ++ [name] ≠ [] := by simp
    cases hl : es.lookup s with
    | none => simp [walk, hl] at h
    | some n =>
      cases n with
      | file t r w =>
        simp only [walk, hl] at h
        split at h <;> simp at h
      | dir sub1 =>
        simp only [walk, hl] at h
        obtain ⟨sub2, hw, hr⟩ := ih sub1 sub h hnew
        refine ⟨setEntry es s (.dir sub2), ?_, ?_⟩
        · simp [write_cons_of_ne_nil es s _ data hq, hl, hw]
        · simp [walk_cons_of_ne_nil _ s _ hq, lookup_setEntry_self es s _ _ hl, hr]

/-- Writing over a writable regular file succeeds and replaces its whole text. -/
theorem write_existing (p : List String) (data t0 : String) (r : Bool) :
    ∀ (es : Dir), walk es p = some (.file t0 r true) →
      ∃ es2, write es p data = some es2 ∧ walk es2 p = some (.file data r true) := by
  induction p with
  | nil =>
    intro es h
    simp [walk] at h
  | cons s rest ih =>
    intro es h
    cases rest with
    | nil =>
      rw [walk_singleton] at h
      refine ⟨setEntry es s (.file data r true), ?_, ?_⟩
      · simp [write, h]
      · rw [walk_singleton]
        exact lookup_setEntry_self es s _ _ h
    | cons r1 rest2 =>
      have hq : r1 :: rest2 ≠ [] := by simp
      rw [walk_cons_of_ne_nil es s _ hq] at h
      cases hl : es.lookup s with
      | none => simp [hl] at h
      | some n =>
        cases n with
        | file t r0 w => simp [hl] at h
        | dir sub1 =>
          simp only [hl] at h
          obtain ⟨sub2, hw, hr⟩ := ih sub1 h
          refine ⟨setEntry es s (.dir sub2), ?_, ?_⟩
          · simp [write_cons_of_ne_nil es s _ data hq, hl, hw]
          · simp [walk_cons_of_ne_nil _ s _ hq, lookup_setEntry_self es s _ _ hl, hr]

/-- Removing a regular file succeeds and leaves nothing at its path. -/
theorem remove_of_file (p : List String) (t : String) (r w : Bool) :
    ∀ (es : Dir), walk es p = some (.file t r w) →
      ∃ es2, remove es p = some es2 ∧ walk es2 p = none := by
  induction p with
  | nil =>
    intro es h
    simp [walk] at h
  | cons s rest ih =>
    intro es h
    cases rest with
    | nil =>
      rw [walk_singleton] at h
      refine ⟨es.filter (fun e => e.1 != s), ?_, ?_⟩
      · simp [remove, h]
      · rw [walk_singleton]
        exact lookup_filter_ne es s
    | cons r1 rest2 =>
      have hq : r1 :: rest2 ≠ [] := by simp
      rw [walk_cons_of_ne_nil es s _ hq] at h
      cases hl : es.lookup s with
      | none => simp [hl] at h
      | some n =>
        cases n with
        | file t r0 w => simp [hl] at h
        | dir sub1 =>
          simp only [hl] at h
          obtain ⟨sub2, hw, hr⟩ := ih sub1 h
          refine ⟨setEntry es s (.dir sub2), ?_, ?_⟩
          · simp [remove_cons_of_ne_nil es s _ hq, hl, hw]
          · simp [walk_cons_of_ne_nil _ s _ hq, lookup_setEntry_self es s _ _ hl, hr]

/-- Removing fails where the path does not lead to a regular file. -/
theorem remove_eq_none (p : List String) :
    ∀ (es : Dir), (∀ t r w, walk es p ≠ some (.file t r w)) → remove es p = none := by
  induction p with
  | nil =>
    intro es _
    rfl
  | cons s rest ih =>
    intro es h
    cases rest with
    | nil =>
      simp only [walk_singleton] at h
      cases hl : es.lookup s with
      | none => simp [remove, hl]
      | some n =>
        cases n with
        | file t r w => exact absurd hl (h t r w)
        | dir sub => simp [remove, hl]
    | cons r1 rest2 =>
      have hq : r1 :: rest2 ≠ [] := by simp
      rw [remove_cons_of_ne_nil es s _ hq]
      simp only [walk_cons_of_ne_nil es s _ hq] at h
      cases hl : es.lookup s with
      | none => rfl
      | some n =>
        cases n with
        | file t r0 w => rfl
        | dir sub1 =>
          simp only [hl] at h
          simp [ih sub1 h]

/-! ## Facts about `fs` -/

theorem resolve_eq_walk (disk : Dir) (p : FsPath) (hnul : p.segs.any hasNul = false)
    (htr : p.trailing = false) : fs.resolve disk p = walk disk p.segs := by
  unfold fs.resolve
  rw [hnul, htr]
  cases h : walk disk p.segs with
  | none => simp
  | some n => cases n <;> simp

theorem resolve_file (disk : Dir) (p : FsPath) (t : String) (r w : Bool)
    (h : fs.resolve disk p = some (.file t r w)) :
    p.segs.any hasNul = false ∧ p.trailing = false ∧ walk disk p.segs = some (.file t r w) := by
  unfold fs.resolve at h
  by_cases hnul : p.segs.any hasNul = true
  · simp [hnul] at h
  · have hnul2 : p.segs.any hasNul = false := by simpa using hnul
    rw [hnul2] at h
    cases hw : walk disk p.segs with
    | none => simp [hw] at h
    | some n =>
      cases n with
      | dir sub => simp [hw] at h
      | file t0 r0 w0 =>
        cases htr : p.trailing with
        | true => simp [hw, htr] at h
        | false =>
          simp [hw, htr] at h
          simp [hnul2, h]

theorem resolve_dir (disk : Dir) (p : FsPath) (es : Dir)
    (h : fs.resolve disk p = some (.dir es)) :
    p.segs.any hasNul = false ∧ walk disk p.segs = some (.dir es) := by
  unfold fs.resolve at h
  by_cases hnul : p.segs.any hasNul = true
  · simp [hnul] at h
  · have hnul2 : p.segs.any hasNul = false := by simpa using hnul
    rw [hnul2] at h
    cases hw : walk disk p.segs with
    | none => simp [hw] at h
    | some n =>
      cases n with
      | dir sub =>
        simp [hw] at h
        simp [hnul2, h]
      | file t0 r0 w0 =>
        simp only [hw] at h
        split at h <;> simp at h

/-- The parent of an existing directory resolves to a directory. -/
theorem resolve_parent_dir (disk : Dir) (cache : List String) (es : Dir)
    (h : fs.resolve disk ⟨cache, false⟩ = some (.dir es)) :
    ∃ sub, fs.resolve disk ⟨cache.dropLast, false⟩ = some (.dir sub) := by
  obtain ⟨hnul, hw⟩ := resolve_dir disk _ es h
  obtain ⟨sub, hsub⟩ := walk_dropLast_dir cache disk _ hw
  refine ⟨sub, ?_⟩
  have hnul2 : cache.dropLast.any hasNul = false := by
    simp only [List.any_eq_false] at hnul ⊢
    intro x hx
    exact hnul x (List.dropLast_subset cache hx)
  rw [resolve_eq_walk disk ⟨cache.dropLast, false⟩ hnul2 rfl]
  exact hsub

/-- A path component that does not name a directory is joined below the store
directory as it stands. -/
theorem note_path (cache : List String) (disk es : Dir) (name : String)
    (hcache : fs.resolve disk ⟨cache, false⟩ = some (.dir es))
    (hname : IsPathComponent name)
    (hnd : ∀ sub, fs.resolve disk (path.join cache name) ≠ some (.dir sub)) :
    path.join cache name = ⟨cache ++ [name], false⟩ ∧
      (cache ++ [name]).any hasNul = false := by
  rcases component_cases name hname with h | h | h
  · subst h
    rw [path.join_dot] at hnd
    exact absurd hcache (hnd es)
  · subst h
    rw [path.join_dotdot] at hnd
    obtain ⟨sub, hsub⟩ := resolve_parent_dir disk cache es hcache
    exact absurd hsub (hnd sub)
  · refine ⟨path.join_of_fileName cache name h, ?_⟩
    have hc := (resolve_dir disk _ es hcache).1
    simp only [List.any_append, hc, List.any_cons, hasNul_of_component name hname,
      List.any_nil, Bool.or_self]

/-- Writing a note whose path is free, or held by an ordinary file, succeeds; the
path then holds a readable, writable file with exactly the written text. -/
theorem fs_write_note (cache : List String) (disk es : Dir) (name data : String)
    (hcache : fs.resolve disk ⟨cache, false⟩ = some (.dir es))
    (hname : IsPathComponent name)
    (htarget : fs.resolve disk (path.join cache name) = none ∨
      ∃ t0, fs.resolve disk (path.join cache name) = some (.file t0 true true)) :
    ∃ disk2, fs.writeFile disk (path.join cache name) data = some disk2 ∧
      fs.resolve disk2 (path.join cache name) = some (.file data true true) := by
  have hnd : ∀ sub, fs.resolve disk (path.join cache name) ≠ some (.dir sub) := by
    intro sub hsub
    rcases htarget with h | ⟨t0, h⟩ <;> simp [h] at hsub
  obtain ⟨hp, hnul⟩ := note_path cache disk es name hcache hname hnd
  rw [hp] at htarget ⊢
  have hres : ∀ d : Dir, fs.resolve d ⟨cache ++ [name], false⟩ = walk d (cache ++ [name]) :=
    fun d => resolve_eq_walk d ⟨cache ++ [name], false⟩ hnul rfl
  have hwf : fs.writeFile disk ⟨cache ++ [name], false⟩ data =
      write disk (cache ++ [name]) data := by
    simp [fs.writeFile, hnul]
  rw [hwf]
  simp only [hres] at htarget ⊢
  rcases htarget with h | ⟨t0, h⟩
  · have hw := (resolve_dir disk _ es hcache).2
    rw [walk_append_dir cache [name] disk es hw, walk_singleton] at h
    exact write_snoc_new cache name data disk es hw h
  · exact write_existing (cache ++ [name]) data t0 true disk h

/-- Unlinking a regular file succeeds and leaves nothing at its path. -/
theorem fs_unlink_file (disk : Dir) (p : FsPath) (t : String) (r w : Bool)
    (h : fs.resolve disk p = some (.file t r w)) :
    ∃ disk2, fs.unlink disk p = some disk2 ∧ fs.resolve disk2 p = none := by
  obtain ⟨hnul, htr, hw⟩ := resolve_file disk p t r w h
  obtain ⟨disk2, hrm, hgone⟩ := remove_of_file p.segs t r w disk hw
  refine ⟨disk2, ?_, ?_⟩
  · simp [fs.unlink, hnul, htr, hrm]
  · rw [resolve_eq_walk disk2 p hnul htr]
    exact hgone

/-- Unlinking rejects where the path does not resolve to a regular file. -/
theorem fs_unlink_none (disk : Dir) (p : FsPath)
    (h : ∀ t r w, fs.resolve disk p ≠ some (.file t r w)) : fs.unlink disk p = none := by
  unfold fs.unlink
  by_cases hg : p.segs.any hasNul = true ∨ p.trailing = true
  · simp only [hg, if_true]
  · simp only [hg, if_false]
    have hnul : p.segs.any hasNul = false := by
      simpa using fun e => hg (Or.inl e)
    have htr : p.trailing = false := by
      simpa using fun e => hg (Or.inr e)
    apply remove_eq_none
    intro t r w hw
    apply h t r w
    rw [resolve_eq_walk disk p hnul htr]
    exact hw

theorem lab6_post_write_eq (cache : List String) (disk : Dir) (body : Option Body) :
    lab6.post_write cache disk body = lab5.post_write cache disk body := rfl

theorem lab6_delete_eq (cache : List String) (disk : Dir) (name : String) :
    lab6.delete_notes_name cache disk name = lab5.delete_notes_name cache disk name := rfl

theorem lab6_get_notes_eq (cache : List String) (disk : Dir) :
    lab6.get_notes cache disk = lab5.get_notes cache disk := rfl

/-- Any write that succeeds leaves a regular file with exactly the written text. -/
theorem write_walk (p : List String) (data : String) :
    ∀ (es es2 : Dir), write es p data = some es2 →
      ∃ r w, walk es2 p = some (.file data r w) := by
  induction p with
  | nil =>
    intro es es2 h
    simp [write] at h
  | cons s rest ih =>
    intro es es2 h
    cases rest with
    | nil =>
      rw [walk_singleton]
      cases hl : es.lookup s with
      | none =>
        simp only [write, hl, Option.some.injEq] at h
        subst h
        exact ⟨true, true, lookup_append_new es s _ hl⟩
      | some n =>
        cases n with
        | dir sub => simp [write, hl] at h
        | file t r w =>
          cases w with
          | false => simp [write, hl] at h
          | true =>
            simp only [write, hl, if_true, Option.some.injEq] at h
            subst h
            exact ⟨r, true, lookup_setEntry_self es s _ _ hl⟩
    | cons r1 rest2 =>
      have hq : r1 :: rest2 ≠ [] := by simp
      rw [write_cons_of_ne_nil es s _ data hq] at h
      cases hl : es.lookup s with
      | none => simp [hl] at h
      | some n =>
        cases n with
        | file t r0 w => simp [hl] at h
        | dir sub1 =>
          simp only [hl] at h
          cases hw : write sub1 (r1 :: rest2) data with
          | none => simp [hw] at h
          | some sub2 =>
            simp only [hw, Option.map_some', Option.some.injEq] at h
            subst h
            obtain ⟨r, w, hr⟩ := ih sub1 sub2 hw
            exact ⟨r, w, by
              simp [walk_cons_of_ne_nil _ s _ hq, lookup_setEntry_self es s _ _ hl, hr]⟩

/-- After `fs.writeFile` resolves, the path holds a regular file with the written text. -/
theorem fs_write_resolve (disk disk2 : Dir) (p : FsPath) (data : String)
    (h : fs.writeFile disk p data = some disk2) :
    ∃ r w, fs.resolve disk2 p = some (.file data r w) := by
  unfold fs.writeFile at h
  by_cases hg : p.segs.any hasNul = true ∨ p.trailing = true
  · rw [if_pos hg] at h
    cases h
  · rw [if_neg hg] at h
    have hnul : p.segs.any hasNul = false := by
      simpa using fun e => hg (Or.inl e)
    have htr : p.trailing = false := by
      simpa using fun e => hg (Or.inr e)
    rw [resolve_eq_walk disk2 p hnul htr]
    exact write_walk p.segs data disk disk2 h

theorem promise_all_map {α β : Type} (l : List β) (f : β → Option α) (g : β → α)
    (h : ∀ x ∈ l, f x = some (g x)) : Promise.all (l.map f) = some (l.map g) := by
  induction l with
  | nil => rfl
  | cons x xs ih =>
    have hx := h x (List.mem_cons_self x xs)
    have hxs := ih (fun y hy => h y (List.mem_cons_of_mem x hy))
    simp [Promise.all, hx, hxs]

theorem promise_all_none {α : Type} (l : List (Option α)) (h : none ∈ l) :
    Promise.all l = none := by
  induction l with
  | nil => simp at h
  | cons x xs ih =>
    cases x with
    | none => simp [Promise.all]
    | some a =>
      have hxs : none ∈ xs := by simpa using h
      simp [Promise.all, ih hxs]

/-- Reading the entry of a well-formed store directory whose node is a readable regular
file yields that file's text. -/
theorem read_entry (cache : List String) (disk es : Dir) (e : String × Node)
    (hcache : fs.resolve disk ⟨cache, false⟩ = some (.dir es))
    (hvalid : ValidEntries es) (hmem : e ∈ es)
    (hfile : e.2.isReadableFile = true) :
    fs.readFile disk (path.join cache e.1) = some e.2.content := by
  obtain ⟨t, w, ht⟩ : ∃ t w, e.2 = .file t true w := by
    cases h2 : e.2 with
    | dir sub => simp [h2, Node.isReadableFile] at hfile
    | file t r w =>
      simp only [h2, Node.isReadableFile] at hfile
      exact ⟨t, w, by rw [hfile]⟩
  have hfn := hvalid.2 e hmem
  obtain ⟨hnulc, hw⟩ := resolve_dir disk _ es hcache
  have hnul : (cache ++ [e.1]).any hasNul = false := by
    simp only [List.any_append, hnulc, List.any_cons, hasNul_of_component e.1 hfn.1,
      List.any_nil, Bool.or_self]
  have hres : fs.resolve disk ⟨cache ++ [e.1], false⟩ = some e.2 := by
    rw [resolve_eq_walk disk ⟨cache ++ [e.1], false⟩ hnul rfl]
    show walk disk (cache ++ [e.1]) = some e.2
    rw [walk_append_dir cache [e.1] disk es hw, walk_singleton]
    exact lookup_of_mem_nodup es e hvalid.1 hmem
  rw [path.join_of_fileName cache e.1 hfn]
  simp [fs.readFile, hres, ht, Node.content]

/-- Writing over an ordinary file succeeds and replaces its whole text. -/
theorem fs_write_existing (disk : Dir) (p : FsPath) (t0 data : String) (r : Bool)
    (h : fs.resolve disk p = some (.file t0 r true)) :
    ∃ disk2, fs.writeFile disk p data = some disk2 ∧
      fs.resolve disk2 p = some (.file data r true) := by
  obtain ⟨hnul, htr, hw⟩ := resolve_file disk p t0 r true h
  obtain ⟨disk2, hwr, hr⟩ := write_existing p.segs data t0 r disk hw
  refine ⟨disk2, ?_, ?_⟩
  · simp [fs.writeFile, hnul, htr, hwr]
  · rw [resolve_eq_walk disk2 p hnul htr]
    exact hr

theorem readFile_of_holds (d : Dir) (p : FsPath) (t1 t2 : String)
    (h : HoldsOneOf d p t1 t2) : fs.readFile d p = some t1 ∨ fs.readFile d p = some t2 := by
  obtain ⟨t, ht, hr⟩ := h
  rcases ht with ht | ht
  · left
    simp [fs.readFile, hr, ht]
  · right
    simp [fs.readFile, hr, ht]

/-- One step of a racing call keeps what is known of the disk and of the call. -/
theorem task_step_inv (cache : List String) (disk0 es : Dir) (name t1 t2 t : String)
    (hcache : fs.resolve disk0 ⟨cache, false⟩ = some (.dir es))
    (hname : IsPathComponent name)
    (hnew : fs.resolve disk0 (path.join cache name) = none)
    (ht : t = t1 ∨ t = t2) (d : Dir) (task : Task)
    (hd : d = disk0 ∨ HoldsOneOf d (path.join cache name) t1 t2)
    (htask : TaskInv d (path.join cache name) t1 t2 t task) :
    ((task.step d).2 = disk0 ∨ HoldsOneOf (task.step d).2 (path.join cache name) t1 t2) ∧
      TaskInv (task.step d).2 (path.join cache name) t1 t2 t (task.step d).1 ∧
      (HoldsOneOf d (path.join cache name) t1 t2 →
        HoldsOneOf (task.step d).2 (path.join cache name) t1 t2) := by
  rcases htask with h | h | ⟨r, h, hheld⟩
  · subst h
    cases hacc : fs.access d (path.join cache name) with
    | false =>
      simp only [Task.step, hacc]
      exact ⟨hd, Or.inr (Or.inl rfl), fun x => x⟩
    | true =>
      have hheld : HoldsOneOf d (path.join cache name) t1 t2 := by
        rcases hd with hd | hd
        · subst hd
          simp [fs.access, hnew] at hacc
        · exact hd
      simp only [Task.step, hacc]
      exact ⟨Or.inr hheld, Or.inr (Or.inr ⟨_, rfl, hheld⟩), fun x => x⟩
  · subst h
    have hw : ∃ d2, fs.writeFile d (path.join cache name) t = some d2 ∧
        fs.resolve d2 (path.join cache name) = some (.file t true true) := by
      rcases hd with hd | ⟨t0, _, hr⟩
      · subst hd
        exact fs_write_note cache d es name t hcache hname (Or.inl hnew)
      · exact fs_write_existing d _ t0 t true hr
    obtain ⟨d2, hw, hr⟩ := hw
    have hheld : HoldsOneOf d2 (path.join cache name) t1 t2 := ⟨t, ht, hr⟩
    simp only [Task.step, hw]
    exact ⟨Or.inr hheld, Or.inr (Or.inr ⟨_, rfl, hheld⟩), fun _ => hheld⟩
  · subst h
    simp only [Task.step]
    exact ⟨hd, Or.inr (Or.inr ⟨r, rfl, hheld⟩), fun x => x⟩

theorem taskInv_mono (d d2 : Dir) (p : FsPath) (t1 t2 t : String) (task : Task)
    (hmono : HoldsOneOf d p t1 t2 → HoldsOneOf d2 p t1 t2)
    (h : TaskInv d p t1 t2 t task) : TaskInv d2 p t1 t2 t task := by
  rcases h with h | h | ⟨r, h, hheld⟩
  · exact Or.inl h
  · exact Or.inr (Or.inl h)
  · exact Or.inr (Or.inr ⟨r, h, hmono hheld⟩)

/-- Every schedule keeps `SysInv`. -/
theorem sysInv_run (cache : List String) (disk0 es : Dir) (name t1 t2 : String)
    (hcache : fs.resolve disk0 ⟨cache, false⟩ = some (.dir es))
    (hname : IsPathComponent name)
    (hnew : fs.resolve disk0 (path.join cache name) = none)
    (sched : List Bool) :
    ∀ s : Sys, SysInv disk0 (path.join cache name) t1 t2 s →
      SysInv disk0 (path.join cache name) t1 t2 (s.run sched) := by
  induction sched with
  | nil =>
    intro s hs
    exact hs
  | cons who rest ih =>
    intro s hs
    apply ih (s.step who)
    obtain ⟨hd, hfirst, hsecond⟩ := hs
    cases who with
    | false =>
      obtain ⟨hd2, ht2, hmono⟩ := task_step_inv cache disk0 es name t1 t2 t1 hcache hname
        hnew (Or.inl rfl) s.disk s.first hd hfirst
      exact ⟨hd2, ht2, taskInv_mono _ _ _ _ _ _ _ hmono hsecond⟩
    | true =>
      obtain ⟨hd2, ht2, hmono⟩ := task_step_inv cache disk0 es name t1 t2 t2 hcache hname
        hnew (Or.inr rfl) s.disk s.second hd hsecond
      exact ⟨hd2, taskInv_mono _ _ _ _ _ _ _ hmono hfirst, ht2⟩

theorem stepsLeft_step (d : Dir) (task : Task) :
    (task.step d).1.stepsLeft ≤ task.stepsLeft - 1 := by
  cases task with
  | probe p note =>
    cases hacc : fs.access d p <;> simp [Task.step, hacc, Task.stepsLeft]
  | write p note =>
    cases hw : fs.writeFile d p note <;> simp [Task.step, hw, Task.stepsLeft]
  | done r => simp [Task.step, Task.stepsLeft]

theorem done_of_stepsLeft (task : Task) (h : task.stepsLeft = 0) : ∃ r, task = .done r := by
  cases task with
  | probe p note => simp [Task.stepsLeft] at h
  | write p note => simp [Task.stepsLeft] at h
  | done r => exact ⟨r, rfl⟩

/-- Each step a schedule gives to a call uses up one of the steps it has left. -/
theorem run_stepsLeft (sched : List Bool) :
    ∀ s : Sys,
      (s.run sched).first.stepsLeft ≤ s.first.stepsLeft - sched.count false ∧
        (s.run sched).second.stepsLeft ≤ s.second.stepsLeft - sched.count true := by
  induction sched with
  | nil =>
    intro s
    simp [Sys.run]
  | cons who rest ih =>
    intro s
    have h := ih (s.step who)
    have hrun : s.run (who :: rest) = (s.step who).run rest := rfl
    rw [hrun]
    cases who with
    | false =>
      have hstep := stepsLeft_step s.disk s.first
      have h1 : (s.step false).first = (s.first.step s.disk).1 := by simp [Sys.step]
      have h2 : (s.step false).second = s.second := by simp [Sys.step]
      rw [h1, h2] at h
      simp only [List.count_cons_self, List.count_cons_of_ne (show true ≠ false by decide)]
      omega
    | true =>
      have hstep := stepsLeft_step s.disk s.second
      have h1 : (s.step true).first = s.first := by simp [Sys.step]
      have h2 : (s.step true).second = (s.second.step s.disk).1 := by simp [Sys.step]
      rw [h1, h2] at h
      simp only [List.count_cons_self, List.count_cons_of_ne (show false ≠ true by decide)]
      omega

/-- Run back to back, the two file-system steps are the handler. -/
theorem post_write_eq_steps (cache : List String) (disk : Dir) (body : Option Body) :
    (((Task.start cache body).step disk).1.step ((Task.start cache body).step disk).2) =
      (.done (lab5.post_write cache disk body).1, (lab5.post_write cache disk body).2) := by
  cases body with
  | none => rfl
  | some b =>
    by_cases hg : (!truthy b.note_name || !truthy b.note) = true
    · simp [Task.start, lab5.post_write, hg, Task.step]
    · cases hacc : fs.access disk (path.join cache (b.note_name.getD "")) with
      | true => simp [Task.start, lab5.post_write, hg, Task.step, hacc]
      | false =>
        cases hw : fs.writeFile disk (path.join cache (b.note_name.getD ""))
            (b.note.getD "") with
        | none => simp [Task.start, lab5.post_write, hg, Task.step, hacc, hw]
        | some d => simp [Task.start, lab5.post_write, hg, Task.step, hacc, hw]

/-! ## The handlers' contracts -/

/-- C1 (lab5 round trip): when the store directory exists, `name` is a single path
component at which nothing exists yet and `text` is non-empty, `POST /write` with
`note_name = name`, `note = text` answers 201 "Created", and `GET /notes/name` on the
resulting disk answers 200 with body exactly `text`. -/
theorem lab5_create_then_get (cache : List String) (disk es : Dir) (name text : String)
    (other : Option String)
    (hcache : fs.resolve disk ⟨cache, false⟩ = some (.dir es))
    (hname : IsPathComponent name)
    (hnew : fs.resolve disk (path.join cache name) = none)
    (htext : text ≠ "") :
    (lab5.post_write cache disk (some ⟨some name, some text, other⟩)).1 =
        ⟨201, .text "Created"⟩ ∧
      lab5.get_notes_name cache
          (lab5.post_write cache disk (some ⟨some name, some text, other⟩)).2 name =
        ⟨200, .text text⟩ := by
  obtain ⟨disk2, hw, hr⟩ :=
    fs_write_note cache disk es name text hcache hname (Or.inl hnew)
  simp [lab5.post_write, truthy, hname.1, htext, fs.access, hnew, hw, lab5.get_notes_name,
    fs.readFile, hr]

theorem lab5_create_then_get_witness :
    (lab5.post_write demoCache demoDisk (some ⟨some "b.txt", some "world", none⟩)).1 =
        ⟨201, .text "Created"⟩ ∧
      lab5.get_notes_name demoCache
          (lab5.post_write demoCache demoDisk (some ⟨some "b.txt", some "world", none⟩)).2
          "b.txt" = ⟨200, .text "world"⟩ :=
  lab5_create_then_get demoCache demoDisk
    [("a.txt", .file "hello" true true), ("sub", .dir [])] "b.txt" "world" none
    (by decide) (by decide) (by decide) (by decide)

/-- C2 (create on an existing name, lab5 and lab6): when `note_name` and `note` are
non-empty and a file already exists at the note's path, `POST /write` answers
400 "Note already exists" and returns the disk unchanged, so the file still holds
the text and permissions it had. -/
theorem post_write_existing_rejected (cache : List String) (disk : Dir)
    (note_name note : String) (other : Option String) (t : String) (r w : Bool)
    (hname : note_name ≠ "") (hnote : note ≠ "")
    (hex : fs.resolve disk (path.join cache note_name) = some (.file t r w)) :
    lab5.post_write cache disk (some ⟨some note_name, some note, other⟩) =
        (⟨400, .text "Note already exists"⟩, disk) ∧
      lab6.post_write cache disk (some ⟨some note_name, some note, other⟩) =
        (⟨400, .text "Note already exists"⟩, disk) ∧
      fs.resolve (lab5.post_write cache disk (some ⟨some note_name, some note, other⟩)).2
          (path.join cache note_name) = some (.file t r w) ∧
      fs.resolve (lab6.post_write cache disk (some ⟨some note_name, some note, other⟩)).2
          (path.join cache note_name) = some (.file t r w) := by
  simp [lab6_post_write_eq, lab5.post_write, truthy, hname, hnote, fs.access, hex]

theorem post_write_existing_rejected_witness :
    lab5.post_write demoCache demoDisk (some ⟨some "a.txt", some "other", none⟩) =
        (⟨400, .text "Note already exists"⟩, demoDisk) ∧
      lab6.post_write demoCache demoDisk (some ⟨some "a.txt", some "other", none⟩) =
        (⟨400, .text "Note already exists"⟩, demoDisk) ∧
      fs.resolve (lab5.post_write demoCache demoDisk
          (some ⟨some "a.txt", some "other", none⟩)).2 (path.join demoCache "a.txt") =
        some (.file "hello" true true) ∧
      fs.resolve (lab6.post_write demoCache demoDisk
          (some ⟨some "a.txt", some "other", none⟩)).2 (path.join demoCache "a.txt") =
        some (.file "hello" true true) :=
  post_write_existing_rejected demoCache demoDisk "a.txt" "other" none "hello" true true
    (by decide) (by decide) (by decide)

/-- C3 (create validation, lab5 and lab6): if `note_name` or `note` is absent or the
empty string, `POST /write` answers 400 "Missing required fields" and returns the disk
unchanged; if both are non-empty strings the response is not
400 "Missing required fields". -/
theorem post_write_missing_fields (cache : List String) (disk : Dir) (b : Body) :
    ((b.note_name = none ∨ b.note_name = some "" ∨ b.note = none ∨ b.note = some "") →
        lab5.post_write cache disk (some b) =
            (⟨400, .text "Missing required fields"⟩, disk) ∧
          lab6.post_write cache disk (some b) =
            (⟨400, .text "Missing required fields"⟩, disk)) ∧
      (∀ n t : String, b.note_name = some n → b.note = some t → n ≠ "" → t ≠ "" →
        (lab5.post_write cache disk (some b)).1 ≠ ⟨400, .text "Missing required fields"⟩ ∧
          (lab6.post_write cache disk (some b)).1 ≠
            ⟨400, .text "Missing required fields"⟩) := by
  constructor
  · intro h
    rw [lab6_post_write_eq]
    rcases h with h | h | h | h <;> simp [lab5.post_write, truthy, h]
  · intro n t hn ht hne hte
    rw [lab6_post_write_eq]
    simp only [lab5.post_write, truthy, hn, ht, Option.getD_some]
    cases fs.access disk (path.join cache n) with
    | true => simp [hne, hte]
    | false =>
      cases fs.writeFile disk (path.join cache n) t with
      | none => simp [hne, hte]
      | some d => simp [hne, hte]

theorem post_write_missing_fields_witness :
    (lab5.post_write demoCache demoDisk (some ⟨some "b.txt", some "", none⟩) =
        (⟨400, .text "Missing required fields"⟩, demoDisk) ∧
      lab6.post_write demoCache demoDisk (some ⟨some "b.txt", some "", none⟩) =
        (⟨400, .text "Missing required fields"⟩, demoDisk)) ∧
    ((lab5.post_write demoCache demoDisk (some ⟨some "b.txt", some "x", none⟩)).1 ≠
        ⟨400, .text "Missing required fields"⟩ ∧
      (lab6.post_write demoCache demoDisk (some ⟨some "b.txt", some "x", none⟩)).1 ≠
        ⟨400, .text "Missing required fields"⟩) :=
  ⟨(post_write_missing_fields demoCache demoDisk ⟨some "b.txt", some "", none⟩).1
      (Or.inr (Or.inr (Or.inr rfl))),
    (post_write_missing_fields demoCache demoDisk ⟨some "b.txt", some "x", none⟩).2
      "b.txt" "x" rfl rfl (by decide) (by decide)⟩

/-- C4, as stated, fails: `sub` is a single path component of the store directory of
`demoDisk` and names a subdirectory there, and `PUT /notes/sub` with the non-empty text
`world` answers 500 "Error updating note" and writes nothing, so it does not answer
200 followed by a `GET` with `world`.  The same 500 is the answer on a file that may
not be written, and on a file that may be written but not read the `PUT` answers 200
while the following `GET` answers 404. -/
theorem lab5_put_on_directory_fails :
    (IsPathComponent "sub" ∧
      lab5.put_notes_name demoCache demoDisk "sub" (some ⟨none, none, some "world"⟩) =
        (⟨500, .text "Error updating note"⟩, demoDisk) ∧
      ¬ ((lab5.put_notes_name demoCache demoDisk "sub"
            (some ⟨none, none, some "world"⟩)).1 = ⟨200, .text "Updated successfully"⟩ ∧
          lab5.get_notes_name demoCache
            (lab5.put_notes_name demoCache demoDisk "sub"
              (some ⟨none, none, some "world"⟩)).2 "sub" = ⟨200, .text "world"⟩)) ∧
      lab5.put_notes_name demoCache notesDisk "a.txt" (some ⟨none, none, some "world"⟩) =
        (⟨500, .text "Error updating note"⟩, notesDisk) ∧
      ((lab5.put_notes_name demoCache writeOnlyDisk "w.txt"
          (some ⟨none, none, some "world"⟩)).1 = ⟨200, .text "Updated successfully"⟩ ∧
        lab5.get_notes_name demoCache
          (lab5.put_notes_name demoCache writeOnlyDisk "w.txt"
            (some ⟨none, none, some "world"⟩)).2 "w.txt" = ⟨404, .text "Not found"⟩) := by
  decide

/-- C4, amended (replace creates and overwrites, lab5): when the store directory
exists, `name` is a single path component whose path is free or holds an ordinary
(readable, writable) regular file, and `text` is non-empty, `PUT /notes/name` with body
`text` answers 200 "Updated successfully", and `GET /notes/name` on the resulting disk
answers 200 with body exactly `text`. -/
theorem lab5_put_then_get (cache : List String) (disk es : Dir) (name text : String)
    (f1 f2 : Option String)
    (hcache : fs.resolve disk ⟨cache, false⟩ = some (.dir es))
    (hname : IsPathComponent name)
    (htarget : fs.resolve disk (path.join cache name) = none ∨
      ∃ t0, fs.resolve disk (path.join cache name) = some (.file t0 true true))
    (htext : text ≠ "") :
    (lab5.put_notes_name cache disk name (some ⟨f1, f2, some text⟩)).1 =
        ⟨200, .text "Updated successfully"⟩ ∧
      lab5.get_notes_name cache
          (lab5.put_notes_name cache disk name (some ⟨f1, f2, some text⟩)).2 name =
        ⟨200, .text text⟩ := by
  obtain ⟨disk2, hw, hr⟩ := fs_write_note cache disk es name text hcache hname htarget
  simp [lab5.put_notes_name, truthy, htext, hw, lab5.get_notes_name, fs.readFile, hr]

theorem lab5_put_then_get_witness :
    ((lab5.put_notes_name demoCache demoDisk "a.txt" (some ⟨none, none, some "world"⟩)).1 =
        ⟨200, .text "Updated successfully"⟩ ∧
      lab5.get_notes_name demoCache
          (lab5.put_notes_name demoCache demoDisk "a.txt"
            (some ⟨none, none, some "world"⟩)).2 "a.txt" = ⟨200, .text "world"⟩) ∧
    ((lab5.put_notes_name demoCache demoDisk "c.txt" (some ⟨none, none, some "new"⟩)).1 =
        ⟨200, .text "Updated successfully"⟩ ∧
      lab5.get_notes_name demoCache
          (lab5.put_notes_name demoCache demoDisk "c.txt"
            (some ⟨none, none, some "new"⟩)).2 "c.txt" = ⟨200, .text "new"⟩) :=
  ⟨lab5_put_then_get demoCache demoDisk
      [("a.txt", .file "hello" true true), ("sub", .dir [])] "a.txt" "world" none none
      (by decide) (by decide) (Or.inr ⟨"hello", by decide⟩) (by decide),
    lab5_put_then_get demoCache demoDisk
      [("a.txt", .file "hello" true true), ("sub", .dir [])] "c.txt" "new" none none
      (by decide) (by decide) (Or.inl (by decide)) (by decide)⟩

/-- C5 (delete, lab5 and lab6): if no regular file exists at the note's path,
`DELETE /notes/name` answers 404 "Not found" and returns the disk unchanged; if one
exists it answers 200 "Deleted", nothing exists at the path on the resulting disk, and
`GET /notes/name` (lab5) on that disk answers 404. -/
theorem delete_notes_name_contract (cache : List String) (disk : Dir) (name : String) :
    ((∀ t r w, fs.resolve disk (path.join cache name) ≠ some (.file t r w)) →
        lab5.delete_notes_name cache disk name = (⟨404, .text "Not found"⟩, disk) ∧
          lab6.delete_notes_name cache disk name = (⟨404, .text "Not found"⟩, disk)) ∧
      (∀ t r w, fs.resolve disk (path.join cache name) = some (.file t r w) →
        ((lab5.delete_notes_name cache disk name).1 = ⟨200, .text "Deleted"⟩ ∧
          fs.resolve (lab5.delete_notes_name cache disk name).2 (path.join cache name) =
            none ∧
          lab5.get_notes_name cache (lab5.delete_notes_name cache disk name).2 name =
            ⟨404, .text "Not found"⟩) ∧
        ((lab6.delete_notes_name cache disk name).1 = ⟨200, .text "Deleted"⟩ ∧
          fs.resolve (lab6.delete_notes_name cache disk name).2 (path.join cache name) =
            none ∧
          lab5.get_notes_name cache (lab6.delete_notes_name cache disk name).2 name =
            ⟨404, .text "Not found"⟩)) := by
  constructor
  · intro h
    rw [lab6_delete_eq]
    simp [lab5.delete_notes_name, fs_unlink_none disk _ h]
  · intro t r w h
    obtain ⟨disk2, hu, hgone⟩ := fs_unlink_file disk _ t r w h
    rw [lab6_delete_eq]
    simp [lab5.delete_notes_name, hu, hgone, lab5.get_notes_name, fs.readFile]

theorem delete_notes_name_contract_witness :
    (lab5.delete_notes_name demoCache demoDisk "zzz" = (⟨404, .text "Not found"⟩, demoDisk) ∧
      lab6.delete_notes_name demoCache demoDisk "zzz" =
        (⟨404, .text "Not found"⟩, demoDisk)) ∧
    (((lab5.delete_notes_name demoCache demoDisk "a.txt").1 = ⟨200, .text "Deleted"⟩ ∧
      fs.resolve (lab5.delete_notes_name demoCache demoDisk "a.txt").2
          (path.join demoCache "a.txt") = none ∧
      lab5.get_notes_name demoCache (lab5.delete_notes_name demoCache demoDisk "a.txt").2
          "a.txt" = ⟨404, .text "Not found"⟩) ∧
     ((lab6.delete_notes_name demoCache demoDisk "a.txt").1 = ⟨200, .text "Deleted"⟩ ∧
      fs.resolve (lab6.delete_notes_name demoCache demoDisk "a.txt").2
          (path.join demoCache "a.txt") = none ∧
      lab5.get_notes_name demoCache (lab6.delete_notes_name demoCache demoDisk "a.txt").2
          "a.txt" = ⟨404, .text "Not found"⟩)) :=
  ⟨(delete_notes_name_contract demoCache demoDisk "zzz").1 (by
      intro t r w h
      have h0 : fs.resolve demoDisk (path.join demoCache "zzz") = none := by decide
      rw [h0] at h
      cases h),
    (delete_notes_name_contract demoCache demoDisk "a.txt").2 "hello" true true
      (by decide)⟩

/-- C6 (list, lab5 and lab6): when the store directory exists, its entries have
distinct file names and every entry is a readable regular file, `GET /notes` answers
200 with one `{name, text}` element per entry, in the order of the directory, each
carrying the entry's name and its file's full text; for an empty store directory the
answer is the empty list. -/
theorem get_notes_lists_every_entry (cache : List String) (disk es : Dir)
    (hcache : fs.resolve disk ⟨cache, false⟩ = some (.dir es))
    (hvalid : ValidEntries es)
    (hfiles : ∀ e ∈ es, e.2.isReadableFile = true) :
    lab5.get_notes cache disk = ⟨200, .json (es.map (fun e => Note.mk e.1 e.2.content))⟩ ∧
      lab6.get_notes cache disk =
        ⟨200, .json (es.map (fun e => Note.mk e.1 e.2.content))⟩ ∧
      (es = [] → lab5.get_notes cache disk = ⟨200, .json []⟩ ∧
        lab6.get_notes cache disk = ⟨200, .json []⟩) := by
  have key : lab5.get_notes cache disk =
      ⟨200, .json (es.map (fun e => Note.mk e.1 e.2.content))⟩ := by
    have hall : Promise.all (es.map (fun e : String × Node =>
        (fs.readFile disk (path.join cache e.1)).map (fun text => Note.mk e.1 text))) =
        some (es.map (fun e => Note.mk e.1 e.2.content)) := by
      apply promise_all_map
      intro e he
      rw [read_entry cache disk es e hcache hvalid he (hfiles e he)]
      rfl
    simp only [lab5.get_notes, fs.readdir, hcache, List.map_map]
    have hfun : ((fun name => Option.map (fun text => Note.mk name text)
        (fs.readFile disk (path.join cache name))) ∘ Prod.fst) =
        (fun e : String × Node =>
          (fs.readFile disk (path.join cache e.1)).map (fun text => Note.mk e.1 text)) := rfl
    rw [hfun, hall]
  refine ⟨key, by rw [lab6_get_notes_eq]; exact key, ?_⟩
  intro hes
  rw [lab6_get_notes_eq, key, hes]
  exact ⟨rfl, rfl⟩

theorem get_notes_lists_every_entry_witness :
    lab5.get_notes demoCache notesDisk =
        ⟨200, .json [⟨"b.txt", "second"⟩, ⟨"a.txt", "first"⟩]⟩ ∧
      lab6.get_notes demoCache notesDisk =
        ⟨200, .json [⟨"b.txt", "second"⟩, ⟨"a.txt", "first"⟩]⟩ ∧
      (([("b.txt", .file "second" true true), ("a.txt", .file "first" true false)] : Dir) = [] →
        lab5.get_notes demoCache notesDisk = ⟨200, .json []⟩ ∧
          lab6.get_notes demoCache notesDisk = ⟨200, .json []⟩) :=
  get_notes_lists_every_entry demoCache notesDisk
    [("b.txt", .file "second" true true), ("a.txt", .file "first" true false)]
    (by decide) (by decide) (by decide)

/-- C7 (lab6 `GET /notes/{name}`): for every disk and name the handler throws a
ReferenceError at its first statement, because `cachePath` is bound nowhere in
`lab6/index.js`; it sends neither the 200 with the note nor the 404 its documentation
promises. -/
theorem lab6_get_notes_name_throws (cache : List String) (disk : Dir) (name : String) :
    lab6.get_notes_name cache disk name =
      .threw (.referenceError "cachePath is not defined") := by
  unfold lab6.get_notes_name
  rw [if_pos (by decide)]

/-- C8, as stated, fails: a body whose `text` field is present but empty is answered
with 400 and nothing is written, although the body has a payload and a `text`
field. -/
theorem lab5_put_empty_text_rejected :
    lab5.put_notes_name demoCache demoDisk "a.txt" (some ⟨none, none, some ""⟩) =
        (⟨400, .text "Missing text in request body"⟩, demoDisk) ∧
      ¬ ((lab5.put_notes_name demoCache demoDisk "a.txt"
            (some ⟨none, none, some ""⟩)).1.status = 400 ↔
          ((some ⟨none, none, some ""⟩ : Option Body) = none ∨
            ∃ b : Body, (some ⟨none, none, some ""⟩ : Option Body) = some b ∧
              b.text = none)) := by
  refine ⟨by decide, ?_⟩
  intro h
  have h400 : (lab5.put_notes_name demoCache demoDisk "a.txt"
      (some ⟨none, none, some ""⟩)).1.status = 400 := by decide
  rcases h.mp h400 with h1 | ⟨b, hb, ht⟩
  · cases h1
  · cases hb
    cases ht

/-- C8, amended (lab5 `PUT /notes/:name`): the response is 400 exactly when the body is
absent, has no `text` field, or its `text` is the empty string; for every non-empty
`text`, if the write resolves, the handler answers 200 "Updated successfully", returns
the disk the write produced, and the note's path then holds a file with exactly
`text`. -/
theorem lab5_put_bad_request_iff (cache : List String) (disk : Dir) (name : String)
    (body : Option Body) :
    ((lab5.put_notes_name cache disk name body).1.status = 400 ↔
        (body = none ∨ ∃ b, body = some b ∧ (b.text = none ∨ b.text = some ""))) ∧
      (∀ (b : Body) (text : String) (disk2 : Dir), body = some b → b.text = some text →
        text ≠ "" → fs.writeFile disk (path.join cache name) text = some disk2 →
        lab5.put_notes_name cache disk name body =
            (⟨200, .text "Updated successfully"⟩, disk2) ∧
          ∃ r w, fs.resolve disk2 (path.join cache name) = some (.file text r w)) := by
  constructor
  · cases body with
    | none => simp [lab5.put_notes_name]
    | some b =>
      cases ht : b.text with
      | none => simp [lab5.put_notes_name, truthy, ht]
      | some t =>
        by_cases hte : t = ""
        · simp [lab5.put_notes_name, truthy, ht, hte]
        · cases hw : fs.writeFile disk (path.join cache name) t with
          | none => simp [lab5.put_notes_name, truthy, ht, hte, hw]
          | some d => simp [lab5.put_notes_name, truthy, ht, hte, hw]
  · intro b text disk2 hb ht hte hw
    subst hb
    refine ⟨?_, fs_write_resolve disk disk2 _ text hw⟩
    simp [lab5.put_notes_name, truthy, ht, hte, hw]

theorem lab5_put_bad_request_iff_witness :
    lab5.put_notes_name demoCache demoDisk "a.txt" (some ⟨none, none, some "world"⟩) =
        (⟨200, .text "Updated successfully"⟩,
          [("srv", .dir [("cache", .dir [("a.txt", .file "world" true true),
            ("sub", .dir [])])])]) ∧
      ∃ r w, fs.resolve
          [("srv", .dir [("cache", .dir [("a.txt", .file "world" true true),
            ("sub", .dir [])])])]
          (path.join demoCache "a.txt") = some (.file "world" r w) :=
  (lab5_put_bad_request_iff demoCache demoDisk "a.txt"
      (some ⟨none, none, some "world"⟩)).2
    ⟨none, none, some "world"⟩ "world"
    [("srv", .dir [("cache", .dir [("a.txt", .file "world" true true), ("sub", .dir [])])])]
    rfl rfl (by decide) (by decide)

/-- C9 (list is not partial-tolerant, lab5 and lab6): if the store directory can be
enumerated and reading at least one of its entries rejects, `GET /notes` answers
500 "Server error", so its status is never 200. -/
theorem get_notes_fails_on_unreadable_entry (cache : List String) (disk : Dir)
    (files : List String) (name : String)
    (hdir : fs.readdir disk ⟨cache, false⟩ = some files)
    (hmem : name ∈ files)
    (hfail : fs.readFile disk (path.join cache name) = none) :
    lab5.get_notes cache disk = ⟨500, .text "Server error"⟩ ∧
      lab6.get_notes cache disk = ⟨500, .text "Server error"⟩ ∧
      (lab5.get_notes cache disk).status ≠ 200 ∧
      (lab6.get_notes cache disk).status ≠ 200 := by
  have key : lab5.get_notes cache disk = ⟨500, .text "Server error"⟩ := by
    have hnone : Promise.all (files.map (fun name =>
        (fs.readFile disk (path.join cache name)).map (fun text => Note.mk name text))) =
        none := by
      apply promise_all_none
      apply List.mem_map.mpr
      exact ⟨name, hmem, by rw [hfail]; rfl⟩
    simp only [lab5.get_notes, hdir, hnone]
  rw [lab6_get_notes_eq, key]
  simp

theorem get_notes_fails_on_unreadable_entry_witness :
    lab5.get_notes demoCache demoDisk = ⟨500, .text "Server error"⟩ ∧
      lab6.get_notes demoCache demoDisk = ⟨500, .text "Server error"⟩ ∧
      (lab5.get_notes demoCache demoDisk).status ≠ 200 ∧
      (lab6.get_notes demoCache demoDisk).status ≠ 200 :=
  get_notes_fails_on_unreadable_entry demoCache demoDisk ["a.txt", "sub"] "sub"
    (by decide) (by decide) (by decide)

/-- C10 (check-then-act race in `POST /write`): two calls create the same new name
with non-empty texts `t1` and `t2`, each split into its probe and its write.  After
both probes have run, both calls wait at their write on the unchanged disk (each saw
"does not exist").  If the writes then run first-second, both calls answer 201
"Created" and the file holds `t2`; if they run second-first, both answer 201 and the
file holds `t1`.  Under every schedule, once both calls have answered, the file holds
`t1` or `t2`; and both calls have answered as soon as the schedule has given each of
them two steps. -/
theorem post_write_race (cache : List String) (disk es : Dir) (name t1 t2 : String)
    (hcache : fs.resolve disk ⟨cache, false⟩ = some (.dir es))
    (hname : IsPathComponent name)
    (hnew : fs.resolve disk (path.join cache name) = none)
    (h1 : t1 ≠ "") (h2 : t2 ≠ "") :
    (((raceStart cache disk name t1 t2).run [false, true]).first =
          .write (path.join cache name) t1 ∧
        ((raceStart cache disk name t1 t2).run [false, true]).second =
          .write (path.join cache name) t2 ∧
        ((raceStart cache disk name t1 t2).run [false, true]).disk = disk) ∧
      (((raceStart cache disk name t1 t2).run [false, true, false, true]).first =
          .done ⟨201, .text "Created"⟩ ∧
        ((raceStart cache disk name t1 t2).run [false, true, false, true]).second =
          .done ⟨201, .text "Created"⟩ ∧
        fs.readFile ((raceStart cache disk name t1 t2).run [false, true, false, true]).disk
          (path.join cache name) = some t2) ∧
      (((raceStart cache disk name t1 t2).run [false, true, true, false]).first =
          .done ⟨201, .text "Created"⟩ ∧
        ((raceStart cache disk name t1 t2).run [false, true, true, false]).second =
          .done ⟨201, .text "Created"⟩ ∧
        fs.readFile ((raceStart cache disk name t1 t2).run [false, true, true, false]).disk
          (path.join cache name) = some t1) ∧
      (∀ (sched : List Bool) (r1 r2 : Response),
        ((raceStart cache disk name t1 t2).run sched).first = .done r1 →
        ((raceStart cache disk name t1 t2).run sched).second = .done r2 →
        fs.readFile ((raceStart cache disk name t1 t2).run sched).disk
            (path.join cache name) = some t1 ∨
          fs.readFile ((raceStart cache disk name t1 t2).run sched).disk
            (path.join cache name) = some t2) ∧
      (∀ sched : List Bool, 2 ≤ sched.count false → 2 ≤ sched.count true →
        ∃ r1 r2, ((raceStart cache disk name t1 t2).run sched).first = .done r1 ∧
          ((raceStart cache disk name t1 t2).run sched).second = .done r2) := by
  have hstart : raceStart cache disk name t1 t2 =
      ⟨disk, .probe (path.join cache name) t1, .probe (path.join cache name) t2⟩ := by
    simp [raceStart, Task.start, truthy, hname.1, h1, h2]
  have hacc : fs.access disk (path.join cache name) = false := by
    simp [fs.access, hnew]
  obtain ⟨d1, hw1, hr1⟩ := fs_write_note cache disk es name t1 hcache hname (Or.inl hnew)
  obtain ⟨d2, hw2, hr2⟩ := fs_write_note cache disk es name t2 hcache hname (Or.inl hnew)
  obtain ⟨d12, hw12, hr12⟩ := fs_write_existing d1 _ t1 t2 true hr1
  obtain ⟨d21, hw21, hr21⟩ := fs_write_existing d2 _ t2 t1 true hr2
  refine ⟨?_, ?_, ?_, ?_, ?_⟩
  · simp [hstart, Sys.run, Sys.step, Task.step, hacc]
  · simp [hstart, Sys.run, Sys.step, Task.step, hacc, hw1, hw12, fs.readFile, hr12]
  · simp [hstart, Sys.run, Sys.step, Task.step, hacc, hw2, hw21, fs.readFile, hr21]
  · intro sched r1 r2 hf hs
    have hinv0 : SysInv disk (path.join cache name) t1 t2 (raceStart cache disk name t1 t2) := by
      rw [hstart]
      exact ⟨Or.inl rfl, Or.inl rfl, Or.inl rfl⟩
    obtain ⟨_, hfirst, _⟩ :=
      sysInv_run cache disk es name t1 t2 hcache hname hnew sched _ hinv0
    rcases hfirst with h | h | ⟨r, _, hheld⟩
    · rw [hf] at h
      cases h
    · rw [hf] at h
      cases h
    · exact readFile_of_holds _ _ _ _ hheld
  · intro sched hc1 hc2
    obtain ⟨hl1, hl2⟩ := run_stepsLeft sched (raceStart cache disk name t1 t2)
    have hs1 : (raceStart cache disk name t1 t2).first.stepsLeft = 2 := by
      rw [hstart]
      rfl
    have hs2 : (raceStart cache disk name t1 t2).second.stepsLeft = 2 := by
      rw [hstart]
      rfl
    obtain ⟨r1, hr1⟩ := done_of_stepsLeft _ (by omega :
      ((raceStart cache disk name t1 t2).run sched).first.stepsLeft = 0)
    obtain ⟨r2, hr2⟩ := done_of_stepsLeft _ (by omega :
      ((raceStart cache disk name t1 t2).run sched).second.stepsLeft = 0)
    exact ⟨r1, r2, hr1, hr2⟩

theorem post_write_race_witness :
    (((raceStart demoCache demoDisk "n.txt" "one" "two").run [false, true]).first =
          .write (path.join demoCache "n.txt") "one" ∧
        ((raceStart demoCache demoDisk "n.txt" "one" "two").run [false, true]).second =
          .write (path.join demoCache "n.txt") "two" ∧
        ((raceStart demoCache demoDisk "n.txt" "one" "two").run [false, true]).disk =
          demoDisk) ∧
      (((raceStart demoCache demoDisk "n.txt" "one" "two").run
            [false, true, false, true]).first = .done ⟨201, .text "Created"⟩ ∧
        ((raceStart demoCache demoDisk "n.txt" "one" "two").run
            [false, true, false, true]).second = .done ⟨201, .text "Created"⟩ ∧
        fs.readFile ((raceStart demoCache demoDisk "n.txt" "one" "two").run
            [false, true, false, true]).disk (path.join demoCache "n.txt") = some "two") ∧
      (((raceStart demoCache demoDisk "n.txt" "one" "two").run
            [false, true, true, false]).first = .done ⟨201, .text "Created"⟩ ∧
        ((raceStart demoCache demoDisk "n.txt" "one" "two").run
            [false, true, true, false]).second = .done ⟨201, .text "Created"⟩ ∧
        fs.readFile ((raceStart demoCache demoDisk "n.txt" "one" "two").run
            [false, true, true, false]).disk (path.join demoCache "n.txt") = some "one") ∧
      (∀ (sched : List Bool) (r1 r2 : Response),
        ((raceStart demoCache demoDisk "n.txt" "one" "two").run sched).first = .done r1 →
        ((raceStart demoCache demoDisk "n.txt" "one" "two").run sched).second = .done r2 →
        fs.readFile ((raceStart demoCache demoDisk "n.txt" "one" "two").run sched).disk
            (path.join demoCache "n.txt") = some "one" ∨
          fs.readFile ((raceStart demoCache demoDisk "n.txt" "one" "two").run sched).disk
            (path.join demoCache "n.txt") = some "two") ∧
      (∀ sched : List Bool, 2 ≤ sched.count false → 2 ≤ sched.count true →
        ∃ r1 r2, ((raceStart demoCache demoDisk "n.txt" "one" "two").run sched).first =
            .done r1 ∧
          ((raceStart demoCache demoDisk "n.txt" "one" "two").run sched).second =
            .done r2) :=
  post_write_race demoCache demoDisk
    [("a.txt", .file "hello" true true), ("sub", .dir [])] "n.txt" "one" "two"
    (by decide) (by decide) (by decide) (by decide) (by decide)

end Notes
